import Mathlib

/-!
# Verification of the van routing optimization module

Shallow embedding of `src/routing_optimization.py`: a greedy nearest-neighbor
routing heuristic for capacity-constrained vans on a one-dimensional line,
together with single-van and multi-van optimizers built on top of it.

Modelling conventions:
* Locations, weights, capacities, fuel rates and totals are `Int`
  (the source works with Python integers on all inputs of interest; the
  `isinstance` checks of the input filter hold trivially in this embedding).
* Python's `heapq.heapify` + repeated `heappop` on tuples of integers pops
  elements in nondecreasing lexicographic tuple order; since that order is
  total and equal keys are identical tuples, the popped sequence is exactly
  the sorted sequence, which we compute with an insertion sort.
* The mutable `VanRouter` object becomes an explicit `RouterState` record
  threaded through step functions; the `while` loop of `construct_route`
  becomes a fuel-indexed recursion whose fuel `10 - (picked + delivered)`
  is exact because the loop guard requires `picked + delivered < 10` and
  every iteration increments that sum by one.
-/

/-- Python `distance(a, b) = abs(a - b)` (routing_optimization.py line 13). -/
def distance (a b : Int) : Int := |a - b|

/-- Route actions.  The Python source uses the string literals `start`,
`pick`, `drop`, `end`; `fin` stands for the `end` literal, which is a Lean
keyword. -/
inductive Act where
  | start
  | pick
  | drop
  | fin
deriving DecidableEq, Repr

/-- A package `(pickup, delivery, weight)`. -/
abbrev Pkg := Int × Int × Int

/-- A van `(capacity, fuel_per_unit)`. -/
abbrev Van := Int × Int

/-- A route entry `(location, action, weight)`. -/
abbrev Move := Int × Act × Int

/-- The mutable state of one `VanRouter` instance (lines 33-54). -/
structure RouterState where
  van_capacity : Int
  fuel_per_unit : Int
  route : List Move
  current_location : Int
  total_distance : Int
  total_fuel : Int
  current_load : Int
  picked_up_packages : Nat
  delivered_packages : Nat
  pickups : List (Int × Int)
  deliveries : List (Int × Int)
  not_completed : List Pkg
  packages : List Pkg
deriving DecidableEq, Repr

/-- Lexicographic comparison of integer triples: how Python compares the
`(distance, location, weight)` tuples stored in the heaps of
`find_nearest_valid_move`, and the inner package triples of the selection
heap of `__init__`. -/
def leTriple (a b : Int × Int × Int) : Bool :=
  decide (a.1 < b.1) ||
    (a.1 == b.1 && (decide (a.2.1 < b.2.1) ||
      (a.2.1 == b.2.1 && decide (a.2.2 ≤ b.2.2))))

/-- Lexicographic comparison of the `(distance, package)` pairs heapified by
`VanRouter.__init__` (line 46). -/
def leKeyed (a b : Int × Pkg) : Bool :=
  decide (a.1 < b.1) || (a.1 == b.1 && leTriple a.2 b.2)

/-- Comparison used by `sorted(van_stats, key=lambda x: x[1])` (line 282):
by fuel-per-unit only, so the stable sort keeps input order on ties. -/
def vanLe (a b : Van) : Bool := decide (a.2 ≤ b.2)

/-- Insert `x` into `l` after every element `y` with `le y x`; with a sorted
accumulator this is one step of a stable insertion sort. -/
def insertLe {α : Type} (le : α → α → Bool) (x : α) : List α → List α
  | [] => [x]
  | y :: ys => if le y x then y :: insertLe le x ys else x :: y :: ys

/-- Stable insertion sort (processes the input left to right). -/
def sortLe {α : Type} (le : α → α → Bool) (l : List α) : List α :=
  l.foldl (fun acc x => insertLe le x acc) []

/-- Python `heapq.heappop(h) if h else None`: the minimum element of a heap of
integer triples under lexicographic tuple order, `none` on the empty heap. -/
def heapMin : List (Int × Int × Int) → Option (Int × Int × Int)
  | [] => none
  | x :: xs => some (xs.foldl (fun m y => if leTriple m y then m else y) x)

/-- Constructor `VanRouter.__init__` (lines 21-54).  The code heapifies
`[(distance(0, p[0]), p) for p in packages]` and pops `min(5, n)` elements as
the candidate window; the popped sequence equals the lexicographically sorted
sequence (see the module comment).  The remaining heap is recorded as
`not_completed`; Python lists it in heap-array order, we list it in sorted
order — the two agree as multisets and no claim below depends on the order of
this segment. -/
def VanRouter.init (van : Van) (packages : List Pkg) : RouterState :=
  let sortedKeyed := sortLe leKeyed (packages.map (fun p => (distance 0 p.1, p)))
  let chosen := (sortedKeyed.take (min 5 packages.length)).map Prod.snd
  let rest := (sortedKeyed.drop (min 5 packages.length)).map Prod.snd
  { van_capacity := van.1
    fuel_per_unit := van.2
    route := [(0, Act.start, 0)]
    current_location := 0
    total_distance := 0
    total_fuel := 0
    current_load := 0
    picked_up_packages := 0
    delivered_packages := 0
    pickups := chosen.map (fun p => (p.1, p.2.2))
    deliveries := []
    not_completed := rest
    packages := chosen }

/-- The `pickup_heap` local of `find_nearest_valid_move` (lines 66-70): the
capacity-feasible pending pickups as `(distance, location, weight)` triples. -/
def pickup_heap (s : RouterState) : List (Int × Int × Int) :=
  s.pickups.filterMap (fun lw =>
    if s.current_load + lw.2 ≤ s.van_capacity then
      some (distance s.current_location lw.1, lw.1, lw.2)
    else none)

/-- The `delivery_heap` local of `find_nearest_valid_move` (lines 71-74): all
pending deliveries as `(distance, location, weight)` triples. -/
def delivery_heap (s : RouterState) : List (Int × Int × Int) :=
  s.deliveries.map (fun lw => (distance s.current_location lw.1, lw.1, lw.2))

/-- Method `VanRouter.find_nearest_valid_move` (lines 56-97): build the
capacity-feasible pickup heap and the unconstrained delivery heap, take the
minimum of each, and prefer the pickup when its distance is `<=` the nearest
delivery's distance. -/
def find_nearest_valid_move (s : RouterState) : Option (Int × Int × Act × Int) :=
  match heapMin (pickup_heap s), heapMin (delivery_heap s) with
  | some p, some d =>
      if p.1 ≤ d.1 then some (p.1, p.2.1, Act.pick, p.2.2)
      else some (d.1, d.2.1, Act.drop, d.2.2)
  | some p, none => some (p.1, p.2.1, Act.pick, p.2.2)
  | none, some d => some (d.1, d.2.1, Act.drop, d.2.2)
  | none, none => none

/-- One iteration body of the `construct_route` loop after a move was found
(lines 126-141).  The Python `else` branch treats every non-`pick` action as a
drop.  `list.remove` deletes the first occurrence, i.e. `List.erase`;
`next(d for p, d, w in self.packages if p == loc)` is a first-match lookup —
every pickup entry originates from `packages`, so on reachable states the
lookup succeeds and the default `0` below is never used. -/
def routeStep (s : RouterState) : Int × Int × Act × Int → RouterState
  | (d, loc, action, weight) =>
  let s' : RouterState := { s with
    total_distance := s.total_distance + d
    total_fuel := s.total_fuel + d * s.fuel_per_unit
    route := s.route ++ [(loc, action, weight)]
    current_location := loc }
  if action = Act.pick then
    let delivery_loc := match s'.packages.find? (fun p => p.1 == loc) with
      | some p => p.2.1
      | none => 0
    { s' with
      current_load := s'.current_load + weight
      pickups := s'.pickups.erase (loc, weight)
      deliveries := s'.deliveries ++ [(delivery_loc, weight)]
      picked_up_packages := s'.picked_up_packages + 1 }
  else
    { s' with
      current_load := s'.current_load - weight
      deliveries := s'.deliveries.erase (loc, weight)
      delivered_packages := s'.delivered_packages + 1 }

/-- The loop guard of `construct_route` (lines 109-111):
`(self.pickups or self.deliveries) and (picked + delivered < 10)`. -/
def routeGuard (s : RouterState) : Bool :=
  (!(s.pickups.isEmpty && s.deliveries.isEmpty)) &&
    decide (s.picked_up_packages + s.delivered_packages < 10)

/-- Mapping `(loc, weight) ↦ (loc, loc, weight)`: the self-referential triples pushed
into `not_completed` (lines 114-119 and 148-151). -/
def selfTriple (lw : Int × Int) : Pkg := (lw.1, lw.1, lw.2)

/-- The early-failure exit of `construct_route` (lines 113-124): record all
pending pickups and deliveries as self-referential triples and return without
visiting the depot. -/
def failExtend (s : RouterState) : RouterState :=
  { s with not_completed :=
      s.not_completed ++ s.pickups.map selfTriple ++ s.deliveries.map selfTriple }

/-- The depot-return epilogue of `construct_route` (lines 143-151). -/
def depotReturn (s : RouterState) : RouterState :=
  { s with
    total_distance := s.total_distance + distance s.current_location 0
    total_fuel := s.total_fuel + distance s.current_location 0 * s.fuel_per_unit
    route := s.route ++ [(0, Act.fin, 0)]
    not_completed :=
      s.not_completed ++ s.pickups.map selfTriple ++ s.deliveries.map selfTriple }

/-- The loop guard requires `picked + delivered < 10`, and every iteration
increments that sum, so `10 - (picked + delivered)` iterations always
suffice. -/
def fuelFor (s : RouterState) : Nat :=
  10 - (s.picked_up_packages + s.delivered_packages)

/-- The `while` loop of `construct_route`, as a fuel-indexed recursion.  The
returned flag is `true` exactly on the early-failure exit. -/
def routeLoop : Nat → RouterState → RouterState × Bool
  | 0, s => (s, false)
  | n + 1, s =>
    if routeGuard s then
      match find_nearest_valid_move s with
      | none => (failExtend s, true)
      | some m => routeLoop n (routeStep s m)
    else (s, false)

/-- Method `VanRouter.construct_route` (lines 99-153).  The Python method returns
`(total_distance, total_fuel, route)` and leaves `picked_up_packages` and
`not_completed` readable on the object; we return the final state, whose
fields carry exactly those values. -/
def construct_route (s : RouterState) : RouterState :=
  let r := routeLoop (fuelFor s) s
  if r.2 then r.1 else depotReturn r.1

/-- The sequence of `RouterState`s `construct_route` passes through: the
state before each loop test, then the state produced by the taken exit
(early failure or depot return).  An observer over the same step functions,
used to state per-step invariants. -/
def routeStatesAux : Nat → RouterState → List RouterState
  | 0, s => [s, depotReturn s]
  | n + 1, s =>
    if routeGuard s then
      match find_nearest_valid_move s with
      | none => [s, failExtend s]
      | some m => s :: routeStatesAux n (routeStep s m)
    else [s, depotReturn s]

/-- All states of one `construct_route` run starting from `s`. -/
def routeStates (s : RouterState) : List RouterState :=
  routeStatesAux (fuelFor s) s

/-- Function `filter_invalid_input` (lines 156-196): keep vans with positive capacity
and fuel rate, and packages with positive weight and `pickup != delivery`.
The `isinstance` checks hold trivially for `Int`. -/
def filter_invalid_input (van_stats : List Van) (packages : List Pkg) :
    List Van × List Pkg :=
  (van_stats.filter (fun v => decide (0 < v.1) && decide (0 < v.2)),
   packages.filter (fun p => decide (0 < p.2.2) && !(p.1 == p.2.1)))

/-- The van-evaluation loop of `find_optimal_route_for_single_van`
(lines 230-244): run one fresh attempt per van and keep the attempt with
strictly lower fuel among those that completed at least one pickup
(`best_fuel` starts at infinity, so any successful attempt beats `none`).
The kept `RouterState` determines `best_van` (its capacity/fuel fields),
`best_distance`, `best_fuel`, `best_route` and `best_not_completed`. -/
def bestFold (packages : List Pkg) :
    Option RouterState → List Van → Option RouterState
  | acc, [] => acc
  | acc, van :: rest =>
    let r := construct_route (VanRouter.init van packages)
    bestFold packages
      (match acc with
       | none => if 0 < r.picked_up_packages then some r else none
       | some b =>
          if r.total_fuel < b.total_fuel ∧ 0 < r.picked_up_packages then some r
          else some b) rest

/-- The `for van in van_stats` loop, started with `best_van = None`. -/
def bestAttempt (vans : List Van) (packages : List Pkg) : Option RouterState :=
  bestFold packages none vans

/-- Function `find_optimal_route_for_single_van` (lines 199-254).  A non-`none` best
attempt is equivalent to Python's `if best_route:` test, since every built
route is nonempty (it starts with `(0, start, 0)`). -/
def find_optimal_route_for_single_van (van_stats : List Van) (packages : List Pkg) :
    Option Van × Int × Int × List Move × List Pkg :=
  let fp := filter_invalid_input van_stats packages
  if fp.2.isEmpty then
    match fp.1 with
    | v :: _ => (some v, 0, 0, [(0, Act.start, 0), (0, Act.fin, 0)], [])
    | [] => (none, 0, 0, [], [])
  else
    match bestAttempt fp.1 fp.2 with
    | some r =>
        (some (r.van_capacity, r.fuel_per_unit), r.total_distance, r.total_fuel,
          r.route, r.not_completed)
    | none => (none, 0, 0, [], fp.2)

/-- The `(pickup location, weight)` key of a package: the data the router's
pending-pickup entries retain, and the key the source itself matches on. -/
def pkey (p : Pkg) : Int × Int := (p.1, p.2.2)

/-- Remove the first package whose `pkey` is `k` (first-match semantics,
mirroring the source's own `list.remove` / `next(...)` usage). -/
def eraseFirstKey : List Pkg → Int × Int → List Pkg
  | [], _ => []
  | p :: ps, k => if pkey p = k then ps else p :: eraseFirstKey ps k

/-- The packages of a finished attempt that were actually picked up: the
candidate window minus one package for each still-pending pickup entry. -/
def servedPackages (s : RouterState) : List Pkg :=
  s.pickups.foldl eraseFirstKey s.packages

/-- The packages served by the attempt `find_optimal_route_for_single_van`
selects (empty when it selects no van). -/
def singleServed (van_stats : List Van) (packages : List Pkg) : List Pkg :=
  let fp := filter_invalid_input van_stats packages
  if fp.2.isEmpty then []
  else
    match bestAttempt fp.1 fp.2 with
    | some r => servedPackages r
    | none => []

/-- The van loop of `find_optimal_route_for_multiple_vans` (lines 290-305),
also returning the final remaining-package pool (Python keeps it in the local
`remaining_packages`, used only for the closing warning). -/
def multiLoop : List Van → List Pkg →
    List Van × Int × Int × List (List Move) × List Pkg
  | [], remaining => ([], 0, 0, [], remaining)
  | van :: rest, remaining =>
    if remaining.isEmpty then ([], 0, 0, [], remaining)
    else
      match find_optimal_route_for_single_van [van] remaining with
      | (some bv, d, f, route, nc) =>
          let r := multiLoop rest nc
          (bv :: r.1, d + r.2.1, f + r.2.2.1, route :: r.2.2.2.1, r.2.2.2.2)
      | (none, _, _, _, _) => ([], 0, 0, [], remaining)

/-- Function `find_optimal_route_for_multiple_vans` (lines 257-312): filter, shortlist
the 3 vans with lowest fuel-per-unit (Python's `sorted` is stable), then feed
the shrinking package pool through the shortlist. -/
def find_optimal_route_for_multiple_vans (van_stats : List Van) (packages : List Pkg) :
    List Van × Int × Int × List (List Move) :=
  let fp := filter_invalid_input van_stats packages
  let top := (sortLe vanLe fp.1).take 3
  let r := multiLoop top fp.2
  (r.1, r.2.1, r.2.2.1, r.2.2.2.1)

/-- The load/weight invariant carried by every state of one `construct_route`
run: all pending weights are positive and the current load is the sum of the
pending (in-transit) delivery weights. -/
def LoadInv (s : RouterState) : Prop :=
  (∀ x ∈ s.pickups, 0 < x.2) ∧
  (∀ x ∈ s.deliveries, 0 < x.2) ∧
  s.current_load = (s.deliveries.map Prod.snd).sum

/-- The invariant `LoadInv` together with the capacity bound on the current load. -/
def StepInv (s : RouterState) : Prop :=
  LoadInv s ∧ s.current_load ≤ s.van_capacity

/-- Executable check: the load stays within capacity at every state of the
run starting at `s`. -/
def loadsWithinCapacity (s : RouterState) : Bool :=
  (routeStates s).all (fun t => decide (t.current_load ≤ t.van_capacity))

/-- Executable check: at every state of the run starting at `s`, the load
equals the sum of pending delivery weights, is nonnegative, and is zero
exactly when no delivery is pending. -/
def loadMatchesDeliveries (s : RouterState) : Bool :=
  (routeStates s).all (fun t =>
    (t.current_load == (t.deliveries.map Prod.snd).sum) &&
    decide (0 ≤ t.current_load) &&
    ((t.current_load == 0) == t.deliveries.isEmpty))

/-! ## Basic facts about the heap minimum and move selection -/

/-- The element `heapMin` returns is an element of the heap. -/
theorem heapMin_mem {l : List (Int × Int × Int)} {m : Int × Int × Int}
    (h : heapMin l = some m) : m ∈ l := by
  match l with
  | [] => simp [heapMin] at h
  | x :: xs =>
    simp only [heapMin, Option.some.injEq] at h
    subst h
    induction xs generalizing x with
    | nil => simp
    | cons y ys ih =>
      simp only [List.foldl_cons]
      by_cases hxy : leTriple x y
      · rw [if_pos hxy]
        rcases List.mem_cons.1 (ih x) with h | h
        · simp [h]
        · simp [h]
      · rw [if_neg hxy]
        rcases List.mem_cons.1 (ih y) with h | h
        · simp [h]
        · simp [h]

/-- Membership in the feasible-pickup heap. -/
theorem pickup_heap_mem {s : RouterState} {m : Int × Int × Int}
    (h : m ∈ pickup_heap s) :
    (m.2.1, m.2.2) ∈ s.pickups ∧ s.current_load + m.2.2 ≤ s.van_capacity := by
  rcases List.mem_filterMap.1 h with ⟨lw, hlw, hf⟩
  split at hf
  · cases hf
    simp [*]
  · cases hf

/-- Membership in the delivery heap. -/
theorem delivery_heap_mem {s : RouterState} {m : Int × Int × Int}
    (h : m ∈ delivery_heap s) : (m.2.1, m.2.2) ∈ s.deliveries := by
  rcases List.mem_map.1 h with ⟨lw, hlw, hf⟩
  cases hf
  simpa

/-- A `pick` move returned by `find_nearest_valid_move` names a pending
pickup that fits in the remaining capacity. -/
theorem fnvm_pick {s : RouterState} {d loc w : Int}
    (h : find_nearest_valid_move s = some (d, loc, Act.pick, w)) :
    (loc, w) ∈ s.pickups ∧ s.current_load + w ≤ s.van_capacity := by
  unfold find_nearest_valid_move at h
  split at h
  · rename_i p q hP hD
    split at h
    · cases h
      exact pickup_heap_mem (heapMin_mem hP)
    · cases h
  · rename_i p hP hD
    cases h
    exact pickup_heap_mem (heapMin_mem hP)
  · cases h
  · cases h

/-- A `drop` move returned by `find_nearest_valid_move` names a pending
delivery. -/
theorem fnvm_drop {s : RouterState} {d loc w : Int}
    (h : find_nearest_valid_move s = some (d, loc, Act.drop, w)) :
    (loc, w) ∈ s.deliveries := by
  unfold find_nearest_valid_move at h
  split at h
  · rename_i p q hP hD
    split at h
    · cases h
    · cases h
      exact delivery_heap_mem (heapMin_mem hD)
  · cases h
  · rename_i q hP hD
    cases h
    exact delivery_heap_mem (heapMin_mem hD)
  · cases h

/-- Selection `find_nearest_valid_move` only fails when no delivery is pending: a
nonempty delivery list always yields a candidate. -/
theorem fnvm_none_deliveries {s : RouterState}
    (h : find_nearest_valid_move s = none) : s.deliveries = [] := by
  unfold find_nearest_valid_move at h
  split at h
  · split at h <;> cases h
  · cases h
  · cases h
  · rename_i hP hD
    match hdel : s.deliveries with
    | [] => rfl
    | x :: xs =>
      unfold delivery_heap at hD
      rw [hdel] at hD
      simp [heapMin] at hD

/-- Selection `find_nearest_valid_move` never returns a `start` or `end` action. -/
theorem fnvm_act {s : RouterState} {d loc : Int} {a : Act} {w : Int}
    (h : find_nearest_valid_move s = some (d, loc, a, w)) :
    a = Act.pick ∨ a = Act.drop := by
  unfold find_nearest_valid_move at h
  split at h
  · split at h <;> (cases h; simp)
  · cases h
    simp
  · cases h
    simp
  · cases h

/-! ## Facts about a single loop step -/

/-- A `pick` step, written out. -/
theorem routeStep_pick_eq (s : RouterState) (d loc w : Int) :
    routeStep s (d, loc, Act.pick, w) = { s with
      total_distance := s.total_distance + d
      total_fuel := s.total_fuel + d * s.fuel_per_unit
      route := s.route ++ [(loc, Act.pick, w)]
      current_location := loc
      current_load := s.current_load + w
      pickups := s.pickups.erase (loc, w)
      deliveries := s.deliveries ++
        [(match s.packages.find? (fun p => p.1 == loc) with
          | some p => p.2.1
          | none => 0, w)]
      picked_up_packages := s.picked_up_packages + 1 } := rfl

/-- A non-`pick` step (the source's `else` branch), written out. -/
theorem routeStep_drop_eq (s : RouterState) (d loc w : Int) {a : Act}
    (ha : ¬ a = Act.pick) :
    routeStep s (d, loc, a, w) = { s with
      total_distance := s.total_distance + d
      total_fuel := s.total_fuel + d * s.fuel_per_unit
      route := s.route ++ [(loc, a, w)]
      current_location := loc
      current_load := s.current_load - w
      deliveries := s.deliveries.erase (loc, w)
      delivered_packages := s.delivered_packages + 1 } := by
  simp only [routeStep]
  rw [if_neg ha]

/-- Every loop iteration increments `picked_up_packages + delivered_packages`
by exactly one. -/
theorem routeStep_events (s : RouterState) (m : Int × Int × Act × Int) :
    (routeStep s m).picked_up_packages + (routeStep s m).delivered_packages
      = s.picked_up_packages + s.delivered_packages + 1 := by
  obtain ⟨d, loc, a, w⟩ := m
  by_cases ha : a = Act.pick
  · subst ha
    rw [routeStep_pick_eq]
    dsimp only
    omega
  · rw [routeStep_drop_eq s d loc w ha]
    dsimp only
    omega

/-- A step never touches the window, the van parameters, or the
not-completed list. -/
theorem routeStep_const (s : RouterState) (m : Int × Int × Act × Int) :
    (routeStep s m).packages = s.packages ∧
    (routeStep s m).van_capacity = s.van_capacity ∧
    (routeStep s m).fuel_per_unit = s.fuel_per_unit ∧
    (routeStep s m).not_completed = s.not_completed := by
  obtain ⟨d, loc, a, w⟩ := m
  by_cases ha : a = Act.pick
  · subst ha
    rw [routeStep_pick_eq]
    exact ⟨rfl, rfl, rfl, rfl⟩
  · rw [routeStep_drop_eq s d loc w ha]
    exact ⟨rfl, rfl, rfl, rfl⟩

/-- A step adds `d` to the distance and `d * fuel_per_unit` to the fuel. -/
theorem routeStep_totals (s : RouterState) (m : Int × Int × Act × Int) :
    (routeStep s m).total_distance = s.total_distance + m.1 ∧
    (routeStep s m).total_fuel = s.total_fuel + m.1 * s.fuel_per_unit := by
  obtain ⟨d, loc, a, w⟩ := m
  by_cases ha : a = Act.pick
  · subst ha
    rw [routeStep_pick_eq]
    exact ⟨rfl, rfl⟩
  · rw [routeStep_drop_eq s d loc w ha]
    exact ⟨rfl, rfl⟩

/-! ## The loop: termination fuel and global invariants -/

/-- If the guard still holds, the remaining fuel is positive. -/
theorem fuelFor_pos_of_guard {s : RouterState} (h : routeGuard s = true) :
    0 < fuelFor s := by
  unfold routeGuard at h
  unfold fuelFor
  rw [Bool.and_eq_true] at h
  have := of_decide_eq_true h.2
  omega

/-- Fuel decreases across a step exactly as events increase. -/
theorem fuelFor_step {s : RouterState} (m : Int × Int × Act × Int)
    (h : routeGuard s = true) : fuelFor (routeStep s m) = fuelFor s - 1 := by
  unfold routeGuard at h
  rw [Bool.and_eq_true] at h
  have := of_decide_eq_true h.2
  unfold fuelFor
  rw [routeStep_events]
  omega

/-- Termination: any fuel at least `fuelFor s` computes the
same result, i.e. the loop runs at most `fuelFor s ≤ 10` iterations. -/
theorem routeLoop_fuel_irrel :
    ∀ (n : Nat) (s : RouterState) (m : Nat), fuelFor s ≤ n → n ≤ m →
      routeLoop m s = routeLoop n s := by
  intro n
  induction n with
  | zero =>
    intro s m h0 _
    have hg : routeGuard s = false := by
      unfold fuelFor at h0
      unfold routeGuard
      have : ¬ s.picked_up_packages + s.delivered_packages < 10 := by omega
      simp [this]
    cases m with
    | zero => rfl
    | succ j => simp [routeLoop, hg]
  | succ k ih =>
    intro s m hk hm
    cases m with
    | zero => omega
    | succ j =>
      by_cases hg : routeGuard s = true
      · have hj : k ≤ j := by omega
        simp only [routeLoop, hg, if_true]
        rcases hmv : find_nearest_valid_move s with - | mv
        · rfl
        · have hf : fuelFor (routeStep s mv) ≤ k := by
            rw [fuelFor_step mv hg]
            have := fuelFor_pos_of_guard hg
            omega
          exact ih (routeStep s mv) j hf hj
      · have hg' : routeGuard s = false := by
          revert hg
          cases routeGuard s <;> simp
        simp [routeLoop, hg']

/-- Unfolding: the guard fails, the loop exits normally at any fuel. -/
theorem routeLoop_stop {s : RouterState} (hg : routeGuard s = false) :
    ∀ n, routeLoop n s = (s, false) := by
  intro n
  cases n with
  | zero => rfl
  | succ k => simp [routeLoop, hg]

/-- Unfolding: guard holds and no move exists — early failure. -/
theorem routeLoop_succ_none {s : RouterState} {k : Nat}
    (hg : routeGuard s = true) (hmv : find_nearest_valid_move s = none) :
    routeLoop (k + 1) s = (failExtend s, true) := by
  simp [routeLoop, hg, hmv]

/-- Unfolding: guard holds and a move exists — take the step. -/
theorem routeLoop_succ_some {s : RouterState} {k : Nat}
    {mv : Int × Int × Act × Int}
    (hg : routeGuard s = true) (hmv : find_nearest_valid_move s = some mv) :
    routeLoop (k + 1) s = routeLoop k (routeStep s mv) := by
  simp [routeLoop, hg, hmv]

/-- Field changes of a `pick` step. -/
theorem routeStep_pick_fields (s : RouterState) (d loc w : Int) :
    (routeStep s (d, loc, Act.pick, w)).pickups = s.pickups.erase (loc, w) ∧
    (routeStep s (d, loc, Act.pick, w)).deliveries.length
      = s.deliveries.length + 1 ∧
    (routeStep s (d, loc, Act.pick, w)).picked_up_packages
      = s.picked_up_packages + 1 ∧
    (routeStep s (d, loc, Act.pick, w)).delivered_packages
      = s.delivered_packages := by
  rw [routeStep_pick_eq]
  refine ⟨rfl, ?_, rfl, rfl⟩
  simp

/-- Field changes of a non-`pick` (drop) step. -/
theorem routeStep_notpick_fields (s : RouterState) (d loc w : Int) {a : Act}
    (ha : ¬ a = Act.pick) :
    (routeStep s (d, loc, a, w)).pickups = s.pickups ∧
    (routeStep s (d, loc, a, w)).deliveries = s.deliveries.erase (loc, w) ∧
    (routeStep s (d, loc, a, w)).picked_up_packages = s.picked_up_packages ∧
    (routeStep s (d, loc, a, w)).delivered_packages
      = s.delivered_packages + 1 := by
  rw [routeStep_drop_eq s d loc w ha]
  exact ⟨rfl, rfl, rfl, rfl⟩

/-- Global invariants carried by the `construct_route` loop: the window and
van parameters are untouched; pending pickups only shrink (as a
sub-permutation); `|pickups| + picked` and `|deliveries| + delivered - picked`
are conserved; fuel grows exactly `fuel_per_unit` times the distance; on the
early-failure exit the deliveries are empty and `not_completed` gains exactly
the pending pickups as self-referential triples; on the normal exit
`not_completed` is untouched and the guard has failed. -/
theorem routeLoop_spec :
    ∀ (n : Nat) (s : RouterState), fuelFor s ≤ n →
      (routeLoop n s).1.packages = s.packages ∧
      (routeLoop n s).1.van_capacity = s.van_capacity ∧
      (routeLoop n s).1.fuel_per_unit = s.fuel_per_unit ∧
      List.Subperm (routeLoop n s).1.pickups s.pickups ∧
      (routeLoop n s).1.pickups.length + (routeLoop n s).1.picked_up_packages
        = s.pickups.length + s.picked_up_packages ∧
      (routeLoop n s).1.deliveries.length + (routeLoop n s).1.delivered_packages
          + s.picked_up_packages
        = s.deliveries.length + s.delivered_packages
          + (routeLoop n s).1.picked_up_packages ∧
      (routeLoop n s).1.total_fuel + s.total_distance * s.fuel_per_unit
        = s.total_fuel + (routeLoop n s).1.total_distance * s.fuel_per_unit ∧
      ((routeLoop n s).2 = true →
        (routeLoop n s).1.deliveries = [] ∧
        (routeLoop n s).1.not_completed
          = s.not_completed ++ (routeLoop n s).1.pickups.map selfTriple) ∧
      ((routeLoop n s).2 = false →
        (routeLoop n s).1.not_completed = s.not_completed ∧
        routeGuard (routeLoop n s).1 = false) := by
  intro n
  induction n with
  | zero =>
    intro s h0
    have hg : routeGuard s = false := by
      unfold fuelFor at h0
      unfold routeGuard
      have h10 : ¬ s.picked_up_packages + s.delivered_packages < 10 := by omega
      simp [h10]
    rw [routeLoop_stop hg]
    refine ⟨rfl, rfl, rfl, List.Subperm.refl _, rfl, rfl, rfl, ?_, ?_⟩
    · intro h
      cases h
    · intro _
      exact ⟨rfl, hg⟩
  | succ k ih =>
    intro s hk
    by_cases hg : routeGuard s = true
    · rcases hmv : find_nearest_valid_move s with - | mv
      · rw [routeLoop_succ_none hg hmv]
        have hdel := fnvm_none_deliveries hmv
        refine ⟨rfl, rfl, rfl, List.Subperm.refl _, rfl, rfl, rfl, ?_, ?_⟩
        · intro _
          refine ⟨hdel, ?_⟩
          show s.not_completed ++ s.pickups.map selfTriple
              ++ s.deliveries.map selfTriple
            = s.not_completed ++ s.pickups.map selfTriple
          rw [hdel]
          simp
        · intro h
          cases h
      · have hf : fuelFor (routeStep s mv) ≤ k := by
          rw [fuelFor_step mv hg]
          have := fuelFor_pos_of_guard hg
          omega
        have IH := ih (routeStep s mv) hf
        rw [routeLoop_succ_some hg hmv]
        obtain ⟨d, loc, a, w⟩ := mv
        obtain ⟨hc1, hc2, hc3, hc4⟩ := routeStep_const s (d, loc, a, w)
        obtain ⟨ht1, ht2⟩ := routeStep_totals s (d, loc, a, w)
        obtain ⟨P1, P2, P3, P4, P5, P6, P7, P8, P9⟩ := IH
        rcases fnvm_act hmv with ha | ha
        · subst ha
          obtain ⟨hq1, hq2, hq3, hq4⟩ := routeStep_pick_fields s d loc w
          obtain ⟨hmem, -⟩ := fnvm_pick hmv
          have hlen : 0 < s.pickups.length :=
            List.length_pos.2 (List.ne_nil_of_mem hmem)
          have herase : (s.pickups.erase (loc, w)).length
              = s.pickups.length - 1 := List.length_erase_of_mem hmem
          refine ⟨?_, ?_, ?_, ?_, ?_, ?_, ?_, ?_, ?_⟩
          · rw [P1, hc1]
          · rw [P2, hc2]
          · rw [P3, hc3]
          · have hsp : List.Subperm (s.pickups.erase (loc, w)) s.pickups :=
              (List.erase_sublist (loc, w) s.pickups).subperm
            rw [← hq1] at hsp
            exact P4.trans hsp
          · rw [hq1, herase, hq3] at P5
            omega
          · rw [hq2, hq3, hq4] at P6
            omega
          · rw [ht1, ht2, hc3] at P7
            dsimp only at P7
            rw [add_mul] at P7
            linarith
          · intro hb
            obtain ⟨Q1, Q2⟩ := P8 hb
            rw [hc4] at Q2
            exact ⟨Q1, Q2⟩
          · intro hb
            obtain ⟨Q1, Q2⟩ := P9 hb
            rw [hc4] at Q1
            exact ⟨Q1, Q2⟩
        · have hap : ¬ a = Act.pick := by
            subst ha
            simp
          obtain ⟨hq1, hq2, hq3, hq4⟩ := routeStep_notpick_fields s d loc w hap
          have hmemd : (loc, w) ∈ s.deliveries := by
            subst ha
            exact fnvm_drop hmv
          have hlend : 0 < s.deliveries.length :=
            List.length_pos.2 (List.ne_nil_of_mem hmemd)
          have herased : (s.deliveries.erase (loc, w)).length
              = s.deliveries.length - 1 := List.length_erase_of_mem hmemd
          refine ⟨?_, ?_, ?_, ?_, ?_, ?_, ?_, ?_, ?_⟩
          · rw [P1, hc1]
          · rw [P2, hc2]
          · rw [P3, hc3]
          · refine P4.trans ?_
            rw [hq1]
          · rw [hq1, hq3] at P5
            omega
          · rw [hq2, hq3, hq4] at P6
            rw [herased] at P6
            omega
          · rw [ht1, ht2, hc3] at P7
            dsimp only at P7
            rw [add_mul] at P7
            linarith
          · intro hb
            obtain ⟨Q1, Q2⟩ := P8 hb
            rw [hc4] at Q2
            exact ⟨Q1, Q2⟩
          · intro hb
            obtain ⟨Q1, Q2⟩ := P9 hb
            rw [hc4] at Q1
            exact ⟨Q1, Q2⟩
    · have hg' : routeGuard s = false := by
        revert hg
        cases routeGuard s <;> simp
      rw [routeLoop_stop hg']
      refine ⟨rfl, rfl, rfl, List.Subperm.refl _, rfl, rfl, rfl, ?_, ?_⟩
      · intro h
        cases h
      · intro _
        exact ⟨rfl, hg'⟩

/-- The van parameters survive a whole `construct_route` run. -/
theorem construct_route_van (s : RouterState) :
    (construct_route s).van_capacity = s.van_capacity ∧
    (construct_route s).fuel_per_unit = s.fuel_per_unit := by
  obtain ⟨-, P2, P3, -⟩ := routeLoop_spec (fuelFor s) s (Nat.le_refl _)
  unfold construct_route
  dsimp only
  split
  · exact ⟨P2, P3⟩
  · exact ⟨P2, P3⟩

/-- Fuel is accumulated as `distance * fuel_per_unit` move by move, so across
a whole run (either exit) the fuel delta is the distance delta times the
rate. -/
theorem construct_route_fuel (s : RouterState) :
    (construct_route s).total_fuel + s.total_distance * s.fuel_per_unit
      = s.total_fuel + (construct_route s).total_distance * s.fuel_per_unit := by
  obtain ⟨-, -, P3, -, -, -, P7, -, -⟩ :=
    routeLoop_spec (fuelFor s) s (Nat.le_refl _)
  unfold construct_route
  dsimp only
  split
  · exact P7
  · unfold depotReturn
    dsimp only
    rw [P3] at *
    rw [add_mul]
    linarith

/-- From a freshly initialized state (no events yet, no pending deliveries,
at most 5 pending pickups) a full run leaves the window untouched, only
shrinks the pending pickups, empties the deliveries, and extends
`not_completed` by exactly the still-pending pickups as self-referential
triples. -/
theorem construct_route_init_spec (s : RouterState)
    (h1 : s.picked_up_packages = 0) (h2 : s.delivered_packages = 0)
    (h3 : s.deliveries = []) (h4 : s.pickups.length ≤ 5) :
    (construct_route s).packages = s.packages ∧
    List.Subperm (construct_route s).pickups s.pickups ∧
    (construct_route s).deliveries = [] ∧
    (construct_route s).not_completed
      = s.not_completed ++ (construct_route s).pickups.map selfTriple := by
  obtain ⟨P1, -, -, P4, P5, P6, -, P8, P9⟩ :=
    routeLoop_spec (fuelFor s) s (Nat.le_refl _)
  unfold construct_route
  dsimp only
  rcases hb : (routeLoop (fuelFor s) s).2 with - | -
  · -- normal exit through the depot
    obtain ⟨Q1, Q2⟩ := P9 hb
    rw [if_neg Bool.false_ne_true]
    have hdel : (routeLoop (fuelFor s) s).1.deliveries = [] := by
      rcases hdel : (routeLoop (fuelFor s) s).1.deliveries with - | ⟨x, xs⟩
      · rfl
      · exfalso
        unfold routeGuard at Q2
        rw [hdel] at Q2 P6
        rw [h1] at P5 P6
        rw [h2, h3] at P6
        simp only [List.isEmpty_cons, Bool.and_false, Bool.not_false,
          Bool.true_and, decide_eq_false_iff_not, not_lt] at Q2
        simp only [List.length_nil, List.length_cons] at P6
        omega
    refine ⟨P1, P4, ?_, ?_⟩
    · unfold depotReturn
      dsimp only
      exact hdel
    · unfold depotReturn
      dsimp only
      rw [Q1, hdel]
      simp
  · obtain ⟨Q1, Q2⟩ := P8 hb
    rw [if_pos rfl]
    exact ⟨P1, P4, Q1, Q2⟩

/-! ## Sorting lemmas -/

/-- Inserting permutes to consing. -/
theorem insertLe_perm {α : Type} (le : α → α → Bool) (x : α) (l : List α) :
    List.Perm (insertLe le x l) (x :: l) := by
  induction l with
  | nil => exact List.Perm.refl _
  | cons y ys ih =>
    unfold insertLe
    split
    · exact (List.Perm.cons y ih).trans (List.Perm.swap x y ys)
    · exact List.Perm.refl _

/-- The insertion-sort fold permutes to appending. -/
theorem foldl_insertLe_perm {α : Type} (le : α → α → Bool) :
    ∀ (l acc : List α),
      List.Perm (l.foldl (fun acc x => insertLe le x acc) acc) (acc ++ l) := by
  intro l
  induction l with
  | nil =>
    intro acc
    simp
  | cons x xs ih =>
    intro acc
    simp only [List.foldl_cons]
    refine (ih (insertLe le x acc)).trans ?_
    refine (List.Perm.append_right xs (insertLe_perm le x acc)).trans ?_
    exact List.perm_middle.symm

/-- Sorting with `sortLe` permutes its input. -/
theorem sortLe_perm {α : Type} (le : α → α → Bool) (l : List α) :
    List.Perm (sortLe le l) l := by
  have h := foldl_insertLe_perm le l []
  simpa [sortLe] using h

/-- Inserting into a sorted list keeps it sorted (for a total transitive
comparison). -/
theorem insertLe_pairwise {α : Type} (le : α → α → Bool)
    (htot : ∀ a b, le a b = true ∨ le b a = true)
    (htrans : ∀ a b c, le a b = true → le b c = true → le a c = true)
    (x : α) (l : List α) (hl : l.Pairwise (fun a b => le a b = true)) :
    (insertLe le x l).Pairwise (fun a b => le a b = true) := by
  induction l with
  | nil => simp [insertLe]
  | cons y ys ih =>
    rcases List.pairwise_cons.1 hl with ⟨hy, hys⟩
    unfold insertLe
    split
    · rename_i hyx
      refine List.pairwise_cons.2 ⟨?_, ih hys⟩
      intro z hz
      rcases List.mem_cons.1 ((insertLe_perm le x ys).mem_iff.1 hz) with rfl | hz'
      · exact hyx
      · exact hy z hz'
    · rename_i hyx
      have hxy : le x y = true := by
        rcases htot x y with h | h
        · exact h
        · exact absurd h hyx
      refine List.pairwise_cons.2 ⟨?_, hl⟩
      intro z hz
      rcases List.mem_cons.1 hz with rfl | hz'
      · exact hxy
      · exact htrans x y z hxy (hy z hz')

/-- Sorting with `sortLe` sorts (for a total transitive comparison). -/
theorem sortLe_pairwise {α : Type} (le : α → α → Bool)
    (htot : ∀ a b, le a b = true ∨ le b a = true)
    (htrans : ∀ a b c, le a b = true → le b c = true → le a c = true)
    (l : List α) :
    (sortLe le l).Pairwise (fun a b => le a b = true) := by
  have key : ∀ (l acc : List α),
      acc.Pairwise (fun a b => le a b = true) →
      (l.foldl (fun acc x => insertLe le x acc) acc).Pairwise
        (fun a b => le a b = true) := by
    intro l
    induction l with
    | nil =>
      intro acc h
      exact h
    | cons x xs ih =>
      intro acc h
      simp only [List.foldl_cons]
      exact ih (insertLe le x acc) (insertLe_pairwise le htot htrans x acc h)
  exact key l [] (List.Pairwise.nil)

/-- Comparison `leKeyed` is total. -/
theorem leKeyed_total (a b : Int × Pkg) :
    leKeyed a b = true ∨ leKeyed b a = true := by
  unfold leKeyed leTriple
  simp only [Bool.or_eq_true, Bool.and_eq_true, decide_eq_true_eq, beq_iff_eq]
  omega

/-- Comparison `leKeyed` is transitive. -/
theorem leKeyed_trans (a b c : Int × Pkg)
    (h1 : leKeyed a b = true) (h2 : leKeyed b c = true) :
    leKeyed a c = true := by
  unfold leKeyed leTriple at *
  simp only [Bool.or_eq_true, Bool.and_eq_true, decide_eq_true_eq,
    beq_iff_eq] at *
  omega

/-- Comparison `vanLe` is total. -/
theorem vanLe_total (a b : Van) : vanLe a b = true ∨ vanLe b a = true := by
  unfold vanLe
  simp only [decide_eq_true_eq]
  omega

/-- Comparison `vanLe` is transitive. -/
theorem vanLe_trans (a b c : Van)
    (h1 : vanLe a b = true) (h2 : vanLe b c = true) : vanLe a c = true := by
  unfold vanLe at *
  simp only [decide_eq_true_eq] at *
  omega

/-! ## The per-step load/weight invariant -/

/-- Variant of `perm_cons_erase` for any lawful `BEq` instance (the core lemma is stated
for `DecidableEq` and a different instance than the one our definitions
elaborate with). -/
theorem perm_cons_erase_beq {α : Type} [BEq α] [LawfulBEq α] {a : α}
    {l : List α} (h : a ∈ l) : List.Perm l (a :: l.erase a) := by
  induction l with
  | nil => cases h
  | cons b bs ih =>
    by_cases hba : b = a
    · subst hba
      rw [List.erase_cons_head]
    · rw [List.erase_cons_tail (by simpa using hba)]
      have hmem : a ∈ bs := by
        rcases List.mem_cons.1 h with h' | h'
        · exact absurd h'.symm hba
        · exact h'
      exact (List.Perm.cons b (ih hmem)).trans (List.Perm.swap a b _)

/-- Summing the second components after erasing one occurrence. -/
theorem sum_snd_erase {a : Int × Int} {l : List (Int × Int)} (h : a ∈ l) :
    (l.map Prod.snd).sum = a.2 + ((l.erase a).map Prod.snd).sum := by
  have hp := (perm_cons_erase_beq h).map Prod.snd
  have := hp.sum_eq
  simpa using this

/-- One step preserves the load/weight invariant (for any van capacity). -/
theorem loadInv_preserved {s : RouterState} (hs : LoadInv s)
    {mv : Int × Int × Act × Int}
    (hmv : find_nearest_valid_move s = some mv) :
    LoadInv (routeStep s mv) := by
  obtain ⟨hwp, hwd, hload⟩ := hs
  obtain ⟨d, loc, a, w⟩ := mv
  rcases fnvm_act hmv with ha | ha
  · subst ha
    obtain ⟨hmem, hfit⟩ := fnvm_pick hmv
    rw [routeStep_pick_eq]
    refine ⟨?_, ?_, ?_⟩
    · intro x hx
      exact hwp x (List.mem_of_mem_erase hx)
    · intro x hx
      rcases List.mem_append.1 hx with hx' | hx'
      · exact hwd x hx'
      · rw [List.mem_singleton] at hx'
        have hx2 : x.2 = w := by rw [hx']
        rw [hx2]
        exact hwp (loc, w) hmem
    · show s.current_load + w = _
      rw [List.map_append, List.sum_append, hload]
      simp
  · subst ha
    have hmem := fnvm_drop hmv
    have hne : ¬ Act.drop = Act.pick := by simp
    rw [routeStep_drop_eq s d loc w hne]
    refine ⟨hwp, ?_, ?_⟩
    · intro x hx
      exact hwd x (List.mem_of_mem_erase hx)
    · show s.current_load - w = _
      have := sum_snd_erase hmem
      rw [hload, this]
      ring

/-- One step also preserves the capacity bound. -/
theorem stepInv_preserved {s : RouterState} (hs : StepInv s)
    {mv : Int × Int × Act × Int}
    (hmv : find_nearest_valid_move s = some mv) :
    StepInv (routeStep s mv) := by
  obtain ⟨hl, hcap⟩ := hs
  refine ⟨loadInv_preserved hl hmv, ?_⟩
  obtain ⟨d, loc, a, w⟩ := mv
  rcases fnvm_act hmv with ha | ha
  · subst ha
    obtain ⟨hmem, hfit⟩ := fnvm_pick hmv
    rw [routeStep_pick_eq]
    exact hfit
  · subst ha
    have hmem := fnvm_drop hmv
    have hne : ¬ Act.drop = Act.pick := by simp
    rw [routeStep_drop_eq s d loc w hne]
    show s.current_load - w ≤ s.van_capacity
    have hpos : (0 : Int) < w := hl.2.1 (loc, w) hmem
    omega

/-- The epilogues do not touch the invariant's fields. -/
theorem loadInv_depotReturn {s : RouterState} (hs : LoadInv s) :
    LoadInv (depotReturn s) := hs

/-- The early-failure epilogue does not touch the invariant's fields. -/
theorem loadInv_failExtend {s : RouterState} (hs : LoadInv s) :
    LoadInv (failExtend s) := hs

/-- Every state a run passes through satisfies the load/weight invariant. -/
theorem routeStatesAux_load :
    ∀ (n : Nat) (s : RouterState), LoadInv s →
      ∀ t ∈ routeStatesAux n s, LoadInv t := by
  intro n
  induction n with
  | zero =>
    intro s hs t ht
    rcases List.mem_cons.1 ht with rfl | ht2
    · exact hs
    · rw [List.mem_singleton] at ht2
      rw [ht2]
      exact loadInv_depotReturn hs
  | succ k ih =>
    intro s hs t ht
    unfold routeStatesAux at ht
    by_cases hg : routeGuard s = true
    · rw [if_pos hg] at ht
      rcases hmv : find_nearest_valid_move s with - | mv <;> rw [hmv] at ht
      · rcases List.mem_cons.1 ht with rfl | ht2
        · exact hs
        · rw [List.mem_singleton] at ht2
          rw [ht2]
          exact loadInv_failExtend hs
      · rcases List.mem_cons.1 ht with rfl | ht2
        · exact hs
        · exact ih (routeStep s mv) (loadInv_preserved hs hmv) t ht2
    · rw [if_neg hg] at ht
      rcases List.mem_cons.1 ht with rfl | ht2
      · exact hs
      · rw [List.mem_singleton] at ht2
        rw [ht2]
        exact loadInv_depotReturn hs

/-- Every state a run passes through satisfies the invariant with the
capacity bound. -/
theorem routeStatesAux_inv :
    ∀ (n : Nat) (s : RouterState), StepInv s →
      ∀ t ∈ routeStatesAux n s, StepInv t := by
  intro n
  induction n with
  | zero =>
    intro s hs t ht
    rcases List.mem_cons.1 ht with rfl | ht2
    · exact hs
    · rw [List.mem_singleton] at ht2
      rw [ht2]
      exact hs
  | succ k ih =>
    intro s hs t ht
    unfold routeStatesAux at ht
    by_cases hg : routeGuard s = true
    · rw [if_pos hg] at ht
      rcases hmv : find_nearest_valid_move s with - | mv <;> rw [hmv] at ht
      · rcases List.mem_cons.1 ht with rfl | ht2
        · exact hs
        · rw [List.mem_singleton] at ht2
          rw [ht2]
          exact hs
      · rcases List.mem_cons.1 ht with rfl | ht2
        · exact hs
        · exact ih (routeStep s mv) (stepInv_preserved hs hmv) t ht2
    · rw [if_neg hg] at ht
      rcases List.mem_cons.1 ht with rfl | ht2
      · exact hs
      · rw [List.mem_singleton] at ht2
        rw [ht2]
        exact hs

/-! ## Facts about the initial state -/

/-- Every package in the selected window comes from the input list. -/
theorem init_packages_mem (van : Van) (pkgs : List Pkg) :
    ∀ p ∈ (VanRouter.init van pkgs).packages, p ∈ pkgs := by
  intro p hp
  have hp' : p ∈ ((sortLe leKeyed (pkgs.map (fun q => (distance 0 q.1, q)))).take
      (min 5 pkgs.length)).map Prod.snd := hp
  rcases List.mem_map.1 hp' with ⟨kp, hkp, rfl⟩
  have h1 : kp ∈ sortLe leKeyed (pkgs.map (fun q => (distance 0 q.1, q))) :=
    List.mem_of_mem_take hkp
  have h2 : kp ∈ pkgs.map (fun q => (distance 0 q.1, q)) :=
    (sortLe_perm _ _).mem_iff.1 h1
  rcases List.mem_map.1 h2 with ⟨q, hq, rfl⟩
  exact hq

/-- A freshly initialized router satisfies the load/weight invariant when
the input weights are positive. -/
theorem init_loadInv (van : Van) (pkgs : List Pkg)
    (hw : ∀ p ∈ pkgs, 0 < p.2.2) : LoadInv (VanRouter.init van pkgs) := by
  refine ⟨?_, ?_, rfl⟩
  · intro x hx
    have hx' : x ∈ ((VanRouter.init van pkgs).packages).map
        (fun p => (p.1, p.2.2)) := hx
    rcases List.mem_map.1 hx' with ⟨p, hp, rfl⟩
    exact hw p (init_packages_mem van pkgs p hp)
  · intro x hx
    cases hx

/-- The initial window holds at most 5 pending pickups. -/
theorem init_pickups_len (van : Van) (pkgs : List Pkg) :
    (VanRouter.init van pkgs).pickups.length ≤ 5 := by
  have h : (VanRouter.init van pkgs).pickups
      = (((sortLe leKeyed (pkgs.map (fun q => (distance 0 q.1, q)))).take
          (min 5 pkgs.length)).map Prod.snd).map (fun p => (p.1, p.2.2)) := rfl
  rw [h, List.length_map, List.length_map, List.length_take]
  omega

/-- The initial state has performed no events. -/
theorem init_counters (van : Van) (pkgs : List Pkg) :
    (VanRouter.init van pkgs).picked_up_packages = 0 ∧
    (VanRouter.init van pkgs).delivered_packages = 0 ∧
    (VanRouter.init van pkgs).deliveries = [] ∧
    (VanRouter.init van pkgs).total_distance = 0 ∧
    (VanRouter.init van pkgs).total_fuel = 0 ∧
    (VanRouter.init van pkgs).van_capacity = van.1 ∧
    (VanRouter.init van pkgs).fuel_per_unit = van.2 :=
  ⟨rfl, rfl, rfl, rfl, rfl, rfl, rfl⟩

/-! ## Claim theorems -/

/-- C1: for vans `[(10,10),(9,8)]` and packages `[(-1,5,4),(6,2,9),(-2,9,3)]`,
`find_optimal_route_for_single_van` returns the van `(9,8)`, a route whose
`(location, action)` projection is
`[(0,start),(-1,pick),(-2,pick),(5,drop),(9,drop),(6,pick),(2,drop),(0,end)]`,
total distance `22` and total fuel `176` (the module's own `__main__`
assertions). -/
theorem c1_scenarioA :
    (find_optimal_route_for_single_van [(10, 10), (9, 8)]
        [(-1, 5, 4), (6, 2, 9), (-2, 9, 3)]).1 = some (9, 8) ∧
    (find_optimal_route_for_single_van [(10, 10), (9, 8)]
        [(-1, 5, 4), (6, 2, 9), (-2, 9, 3)]).2.1 = 22 ∧
    (find_optimal_route_for_single_van [(10, 10), (9, 8)]
        [(-1, 5, 4), (6, 2, 9), (-2, 9, 3)]).2.2.1 = 176 ∧
    (find_optimal_route_for_single_van [(10, 10), (9, 8)]
        [(-1, 5, 4), (6, 2, 9), (-2, 9, 3)]).2.2.2.1.map
          (fun m => (m.1, m.2.1))
      = [(0, Act.start), (-1, Act.pick), (-2, Act.pick), (5, Act.drop),
         (9, Act.drop), (6, Act.pick), (2, Act.drop), (0, Act.fin)] ∧
    (find_optimal_route_for_single_van [(10, 10), (9, 8)]
        [(-1, 5, 4), (6, 2, 9), (-2, 9, 3)]).2.2.2.2 = [] := by
  refine ⟨?_, ?_, ?_, ?_, ?_⟩ <;> decide

/-- C2: for every van of positive capacity (as the filter guarantees) and
every package list with positive weights (as the filter guarantees), the
cumulative load at every state of the route built by `construct_route` stays
within the van's capacity.  A pick is only selected when
`current_load + weight <= van_capacity` (lemma `fnvm_pick`), and drops only
decrease the load. -/
theorem c2_capacity_invariant (van : Van) (pkgs : List Pkg)
    (hcap : 0 ≤ van.1) (hw : ∀ p ∈ pkgs, 0 < p.2.2) :
    loadsWithinCapacity (VanRouter.init van pkgs) = true := by
  unfold loadsWithinCapacity routeStates
  rw [List.all_eq_true]
  intro t ht
  have h := routeStatesAux_inv _ _ ⟨init_loadInv van pkgs hw, hcap⟩ t ht
  exact decide_eq_true h.2

/-- Witness for C2 at Scenario A's chosen van and packages. -/
theorem c2_capacity_invariant_witness :
    loadsWithinCapacity
      (VanRouter.init (9, 8) [(-1, 5, 4), (6, 2, 9), (-2, 9, 3)]) = true :=
  c2_capacity_invariant (9, 8) [(-1, 5, 4), (6, 2, 9), (-2, 9, 3)]
    (by decide) (by decide)

/-- C10: at every state of a `construct_route` run on positive-weight
(filtered) packages, `current_load` equals the sum of the pending delivery
weights, is never negative, and is zero exactly when the pending delivery
list is empty. -/
theorem c10_load_matches_deliveries (van : Van) (pkgs : List Pkg)
    (hw : ∀ p ∈ pkgs, 0 < p.2.2) :
    loadMatchesDeliveries (VanRouter.init van pkgs) = true := by
  unfold loadMatchesDeliveries routeStates
  rw [List.all_eq_true]
  intro t ht
  obtain ⟨hwp, hwd, hload⟩ :=
    routeStatesAux_load _ _ (init_loadInv van pkgs hw) t ht
  have hnn : 0 ≤ t.current_load := by
    rw [hload]
    refine List.sum_nonneg ?_
    intro x hx
    rcases List.mem_map.1 hx with ⟨y, hy, rfl⟩
    exact le_of_lt (hwd y hy)
  have hiff : (t.current_load = 0) ↔ t.deliveries = [] := by
    constructor
    · intro h0
      rcases hdel : t.deliveries with - | ⟨y, ys⟩
      · rfl
      · exfalso
        rw [hload, hdel] at h0
        have hy : 0 < y.2 := hwd y (by rw [hdel]; exact List.mem_cons_self y ys)
        have hsum : 0 ≤ (ys.map Prod.snd).sum := by
          refine List.sum_nonneg ?_
          intro x hx
          rcases List.mem_map.1 hx with ⟨z, hz, rfl⟩
          exact le_of_lt (hwd z (by rw [hdel]; exact List.mem_cons_of_mem y hz))
        simp only [List.map_cons, List.sum_cons] at h0
        omega
    · intro h0
      rw [hload, h0]
      rfl
  rw [Bool.and_eq_true, Bool.and_eq_true]
  refine ⟨⟨?_, ?_⟩, ?_⟩
  · exact beq_iff_eq.2 hload
  · exact decide_eq_true hnn
  · rcases hdel : t.deliveries with - | ⟨y, ys⟩
    · have h0 : t.current_load = 0 := hiff.2 hdel
      rw [h0]
      rfl
    · have hne : ¬ t.current_load = 0 := fun h0 => by
        rw [hiff.1 h0] at hdel
        cases hdel
      simp [hne]

/-- Witness for C10 at Scenario A's chosen van and packages. -/
theorem c10_load_matches_deliveries_witness :
    loadMatchesDeliveries
      (VanRouter.init (9, 8) [(-1, 5, 4), (6, 2, 9), (-2, 9, 3)]) = true :=
  c10_load_matches_deliveries (9, 8) [(-1, 5, 4), (6, 2, 9), (-2, 9, 3)]
    (by decide)

/-! ## The single-van optimizer -/

/-- If no attempt completes a pickup, the accumulator stays `none`. -/
theorem bestFold_none (pkgs : List Pkg) :
    ∀ (vans : List Van),
      (∀ v ∈ vans,
        (construct_route (VanRouter.init v pkgs)).picked_up_packages = 0) →
      bestFold pkgs none vans = none := by
  intro vans
  induction vans with
  | nil =>
    intro _
    rfl
  | cons v vs ih =>
    intro h
    unfold bestFold
    dsimp only
    rw [h v (List.mem_cons_self v vs)]
    rw [if_neg (by omega : ¬ 0 < 0)]
    exact ih (fun u hu => h u (List.mem_cons_of_mem v hu))

/-- Whatever `bestFold` returns is either the accumulator or one of the
attempts. -/
theorem bestFold_mem (pkgs : List Pkg) :
    ∀ (vans : List Van) (acc : Option RouterState) (r : RouterState),
      bestFold pkgs acc vans = some r →
      acc = some r ∨
        ∃ v ∈ vans, r = construct_route (VanRouter.init v pkgs) := by
  intro vans
  induction vans with
  | nil =>
    intro acc r h
    exact Or.inl h
  | cons v vs ih =>
    intro acc r h
    rcases acc with - | b
    · unfold bestFold at h
      dsimp only at h
      rcases ih _ r h with hacc | ⟨v', hv', hr⟩
      · split at hacc
        · cases hacc
          exact Or.inr ⟨v, List.mem_cons_self v vs, rfl⟩
        · cases hacc
      · exact Or.inr ⟨v', List.mem_cons_of_mem v hv', hr⟩
    · unfold bestFold at h
      dsimp only at h
      rcases ih _ r h with hacc | ⟨v', hv', hr⟩
      · split at hacc
        · cases hacc
          exact Or.inr ⟨v, List.mem_cons_self v vs, rfl⟩
        · cases hacc
          exact Or.inl rfl
      · exact Or.inr ⟨v', List.mem_cons_of_mem v hv', hr⟩

/-- C5: whenever every filtered van's attempt on the filtered (nonempty)
package list completes zero pickups, the single-van optimizer returns
`(none, 0, 0, [], filteredPackages)`.  (With an empty filtered package list
no attempt is made at all and Scenario B/C applies instead.) -/
theorem c5_no_pick_failure (van_stats : List Van) (packages : List Pkg)
    (h1 : ¬ (filter_invalid_input van_stats packages).2 = [])
    (h2 : ∀ v ∈ (filter_invalid_input van_stats packages).1,
      (construct_route (VanRouter.init v
        (filter_invalid_input van_stats packages).2)).picked_up_packages
        = 0) :
    find_optimal_route_for_single_van van_stats packages
      = (none, 0, 0, [], (filter_invalid_input van_stats packages).2) := by
  unfold find_optimal_route_for_single_van
  dsimp only
  have he : (filter_invalid_input van_stats packages).2.isEmpty = false := by
    rcases hl : (filter_invalid_input van_stats packages).2 with - | ⟨p, ps⟩
    · exact absurd hl h1
    · rfl
  rw [he]
  rw [if_neg Bool.false_ne_true]
  have hb : bestAttempt (filter_invalid_input van_stats packages).1
      (filter_invalid_input van_stats packages).2 = none :=
    bestFold_none _ _ h2
  rw [hb]

/-- Witness for C5: a single package heavier than every van's capacity; the
chosen van is `none` and the returned remainder contains that package. -/
theorem c5_no_pick_failure_witness :
    find_optimal_route_for_single_van [(10, 10), (9, 8)] [(1, 2, 100)]
        = (none, 0, 0, [],
           (filter_invalid_input [(10, 10), (9, 8)] [(1, 2, 100)]).2) ∧
    (1, 2, 100) ∈ (find_optimal_route_for_single_van [(10, 10), (9, 8)]
        [(1, 2, 100)]).2.2.2.2 :=
  ⟨c5_no_pick_failure [(10, 10), (9, 8)] [(1, 2, 100)] (by decide) (by decide),
   by decide⟩

/-- C6: when a `construct_route` step finds neither a feasible pickup nor a
pending delivery while the loop guard holds, every pending pickup and
delivery is appended to `not_completed` as a self-referential
`(loc, loc, weight)` triple and the builder returns immediately: route,
distance and fuel stand unchanged and no `(0, end, 0)` move is appended. -/
theorem c6_early_failure (s : RouterState)
    (hg : routeGuard s = true)
    (hmv : find_nearest_valid_move s = none) :
    construct_route s = failExtend s ∧
    (construct_route s).route = s.route ∧
    (construct_route s).total_distance = s.total_distance ∧
    (construct_route s).total_fuel = s.total_fuel ∧
    (construct_route s).not_completed
      = s.not_completed ++ s.pickups.map selfTriple
          ++ s.deliveries.map selfTriple := by
  obtain ⟨k, hk⟩ : ∃ k, fuelFor s = k + 1 := by
    have := fuelFor_pos_of_guard hg
    exact ⟨fuelFor s - 1, by omega⟩
  have hcr : construct_route s = failExtend s := by
    unfold construct_route
    dsimp only
    rw [hk, routeLoop_succ_none hg hmv]
    rfl
  refine ⟨hcr, ?_, ?_, ?_, ?_⟩ <;> rw [hcr] <;> rfl

/-- Witness for C6: one package too heavy for the van; the very first step
fails and the run ends with the partial route. -/
theorem c6_early_failure_witness :
    construct_route (VanRouter.init (10, 10) [(1, 2, 100)])
        = failExtend (VanRouter.init (10, 10) [(1, 2, 100)]) ∧
    (construct_route (VanRouter.init (10, 10) [(1, 2, 100)])).route
        = (VanRouter.init (10, 10) [(1, 2, 100)]).route ∧
    (construct_route (VanRouter.init (10, 10) [(1, 2, 100)])).total_distance
        = (VanRouter.init (10, 10) [(1, 2, 100)]).total_distance ∧
    (construct_route (VanRouter.init (10, 10) [(1, 2, 100)])).total_fuel
        = (VanRouter.init (10, 10) [(1, 2, 100)]).total_fuel ∧
    (construct_route (VanRouter.init (10, 10) [(1, 2, 100)])).not_completed
        = (VanRouter.init (10, 10) [(1, 2, 100)]).not_completed
            ++ (VanRouter.init (10, 10) [(1, 2, 100)]).pickups.map selfTriple
            ++ (VanRouter.init (10, 10) [(1, 2, 100)]).deliveries.map
                selfTriple :=
  c6_early_failure (VanRouter.init (10, 10) [(1, 2, 100)])
    (by decide) (by decide)

/-- C7: for every van and package list, the fuel total returned by
`construct_route` equals the distance total times that van's fuel-per-unit —
fuel is accumulated per move as `distance * fuel_per_unit`, on the normal and
the early-failure path alike. -/
theorem c7_fuel_identity (van : Van) (pkgs : List Pkg) :
    (construct_route (VanRouter.init van pkgs)).total_fuel
      = (construct_route (VanRouter.init van pkgs)).total_distance * van.2 := by
  have h := construct_route_fuel (VanRouter.init van pkgs)
  rw [show (VanRouter.init van pkgs).total_fuel = 0 from rfl,
    show (VanRouter.init van pkgs).total_distance = 0 from rfl,
    show (VanRouter.init van pkgs).fuel_per_unit = van.2 from rfl] at h
  simpa using h

/-- C9: `construct_route` terminates on every input: each iteration
increments `picked + delivered` by exactly one and the guard keeps that sum
below 10, so fuel 10 computes the loop's fixpoint (any larger fuel gives the
same result) and the per-attempt window holds at most 5 pickups. -/
theorem c9_termination (van : Van) (pkgs : List Pkg) (n : Nat) (hn : 10 ≤ n)
    (s : RouterState) (m : Int × Int × Act × Int) :
    routeLoop n (VanRouter.init van pkgs)
      = routeLoop 10 (VanRouter.init van pkgs) ∧
    (routeStep s m).picked_up_packages + (routeStep s m).delivered_packages
      = s.picked_up_packages + s.delivered_packages + 1 ∧
    (VanRouter.init van pkgs).pickups.length ≤ 5 := by
  refine ⟨?_, routeStep_events s m, init_pickups_len van pkgs⟩
  have hf : fuelFor (VanRouter.init van pkgs) ≤ 10 := by
    have h0 : fuelFor (VanRouter.init van pkgs) = 10 := rfl
    omega
  exact routeLoop_fuel_irrel 10 (VanRouter.init van pkgs) n hf hn

/-- Witness for C9 at fuel 11 and a concrete state/move. -/
theorem c9_termination_witness :
    routeLoop 11 (VanRouter.init (10, 10) [(1, 2, 3)])
      = routeLoop 10 (VanRouter.init (10, 10) [(1, 2, 3)]) ∧
    (routeStep (VanRouter.init (10, 10) [(1, 2, 3)])
        (1, 1, Act.pick, 3)).picked_up_packages +
      (routeStep (VanRouter.init (10, 10) [(1, 2, 3)])
        (1, 1, Act.pick, 3)).delivered_packages
      = (VanRouter.init (10, 10) [(1, 2, 3)]).picked_up_packages +
        (VanRouter.init (10, 10) [(1, 2, 3)]).delivered_packages + 1 ∧
    (VanRouter.init (10, 10) [(1, 2, 3)]).pickups.length ≤ 5 :=
  c9_termination (10, 10) [(1, 2, 3)] 11 (by decide)
    (VanRouter.init (10, 10) [(1, 2, 3)]) (1, 1, Act.pick, 3)

/-! ## The package window -/

/-- Window plus leftovers is a permutation of the input packages. -/
theorem init_partition_perm (van : Van) (pkgs : List Pkg) :
    List.Perm ((VanRouter.init van pkgs).packages
      ++ (VanRouter.init van pkgs).not_completed) pkgs := by
  have h1 : (VanRouter.init van pkgs).packages
        ++ (VanRouter.init van pkgs).not_completed
      = (sortLe leKeyed (pkgs.map (fun q => (distance 0 q.1, q)))).map
          Prod.snd := by
    show ((sortLe leKeyed (pkgs.map (fun q => (distance 0 q.1, q)))).take
        (min 5 pkgs.length)).map Prod.snd
      ++ ((sortLe leKeyed (pkgs.map (fun q => (distance 0 q.1, q)))).drop
        (min 5 pkgs.length)).map Prod.snd = _
    rw [← List.map_append, List.take_append_drop]
  rw [h1]
  have h2 := (sortLe_perm leKeyed
    (pkgs.map (fun q => (distance 0 q.1, q)))).map Prod.snd
  refine h2.trans ?_
  rw [List.map_map]
  have h3 : ∀ l : List Pkg, l.map (Prod.snd ∘ fun q => (distance 0 q.1, q)) = l := by
    intro l
    induction l with
    | nil => rfl
    | cons p ps ih =>
      simp only [List.map_cons]
      rw [ih]
      rfl
  rw [h3]

/-- C4 counterexample: with six unit-weight packages, the two farthest —
`(3,9,1)` inserted fifth and `(-3,9,1)` inserted sixth — tie at distance 3
from the depot.  Tie-breaking by insertion order would select `(3,9,1)`, but
the heap compares the full `(distance, package)` tuples lexicographically
and selects `(-3,9,1)` instead. -/
theorem c4_window_counterexample :
    (VanRouter.init (10, 10)
        [(1, 9, 1), (-1, 9, 1), (1, 8, 1), (-1, 8, 1), (3, 9, 1),
         (-3, 9, 1)]).packages
      = [(-1, 8, 1), (-1, 9, 1), (1, 8, 1), (1, 9, 1), (-3, 9, 1)] ∧
    (3, 9, 1) ∉ (VanRouter.init (10, 10)
        [(1, 9, 1), (-1, 9, 1), (1, 8, 1), (-1, 8, 1), (3, 9, 1),
         (-3, 9, 1)]).packages ∧
    distance 0 3 = distance 0 (-3) := by
  refine ⟨?_, ?_, ?_⟩ <;> decide

/-- C4 amended: the selector picks exactly `min(5, n)` packages minimizing
the pair `(pickup distance from 0, package)` — ties in distance are broken by
lexicographic comparison of the package triples (Python tuple order in the
heap), not by insertion order — and the remaining packages are recorded as
not completed (window plus remainder is a permutation of the input). -/
theorem c4_window_amended (van : Van) (pkgs : List Pkg) :
    (VanRouter.init van pkgs).packages.length = min 5 pkgs.length ∧
    List.Perm ((VanRouter.init van pkgs).packages
      ++ (VanRouter.init van pkgs).not_completed) pkgs ∧
    ∀ p ∈ (VanRouter.init van pkgs).packages,
      ∀ q ∈ (VanRouter.init van pkgs).not_completed,
        leKeyed (distance 0 p.1, p) (distance 0 q.1, q) = true := by
  refine ⟨?_, init_partition_perm van pkgs, ?_⟩
  · have h : (VanRouter.init van pkgs).packages
        = ((sortLe leKeyed (pkgs.map (fun q => (distance 0 q.1, q)))).take
            (min 5 pkgs.length)).map Prod.snd := rfl
    rw [h, List.length_map, List.length_take]
    have hlen : (sortLe leKeyed
        (pkgs.map (fun q => (distance 0 q.1, q)))).length = pkgs.length := by
      rw [(sortLe_perm _ _).length_eq, List.length_map]
    rw [hlen]
    omega
  · intro p hp q hq
    have hsorted := sortLe_pairwise leKeyed leKeyed_total leKeyed_trans
      (pkgs.map (fun u => (distance 0 u.1, u)))
    rw [← List.take_append_drop (min 5 pkgs.length)
      (sortLe leKeyed (pkgs.map (fun u => (distance 0 u.1, u))))] at hsorted
    rcases (List.pairwise_append.1 hsorted) with ⟨-, -, hcross⟩
    rcases List.mem_map.1 hp with ⟨kp, hkp, rfl⟩
    rcases List.mem_map.1 hq with ⟨kq, hkq, rfl⟩
    have hkey : ∀ kp ∈ sortLe leKeyed
        (pkgs.map (fun u => (distance 0 u.1, u))),
        kp = (distance 0 kp.2.1, kp.2) := by
      intro u hu
      rcases List.mem_map.1 ((sortLe_perm _ _).mem_iff.1 hu) with ⟨w, hw, rfl⟩
      rfl
    have h1 := hkey kp (List.mem_of_mem_take hkp)
    have h2 := hkey kq (List.mem_of_mem_drop hkq)
    rw [← h1, ← h2]
    exact hcross kp hkp kq hkq

/-! ## The multi-van allocator -/

/-- Inserting a van into a fuel-sorted accumulator appends it after all vans
of the same fuel rate (stability of the insertion step). -/
theorem insertLe_filter_fuel (c : Int) (x : Van) :
    ∀ (acc : List Van),
      acc.Pairwise (fun a b => vanLe a b = true) →
      (insertLe vanLe x acc).filter (fun v => v.2 == c)
        = (if x.2 == c
           then acc.filter (fun v => v.2 == c) ++ [x]
           else acc.filter (fun v => v.2 == c)) := by
  intro acc
  induction acc with
  | nil =>
    intro _
    cases hxc : (x.2 == c) <;> simp [insertLe, List.filter, hxc]
  | cons y ys ih =>
    intro hp
    rcases List.pairwise_cons.1 hp with ⟨hy, hys⟩
    unfold insertLe
    by_cases hyx : vanLe y x = true
    · rw [if_pos hyx]
      rw [List.filter_cons, List.filter_cons, ih hys]
      cases hyc : (y.2 == c) <;> cases hxc : (x.2 == c) <;> simp [hyc, hxc]
    · have hxy : x.2 < y.2 := by
        unfold vanLe at hyx
        simp only [decide_eq_true_eq] at hyx
        omega
      rw [if_neg hyx]
      by_cases hxc : (x.2 == c) = true
      · have hc : c = x.2 := (beq_iff_eq.1 hxc).symm
        have hfil : (y :: ys).filter (fun v => v.2 == c) = [] := by
          rw [List.filter_eq_nil_iff]
          intro a ha
          rcases List.mem_cons.1 ha with rfl | ha'
          · simp only [beq_iff_eq]
            omega
          · have := hy a ha'
            unfold vanLe at this
            simp only [decide_eq_true_eq] at this
            simp only [beq_iff_eq]
            omega
        rw [List.filter_cons, hxc, if_pos rfl, hfil]
        simp [hxc]
      · have hxc' : (x.2 == c) = false := by
          revert hxc
          cases (x.2 == c) <;> simp
        rw [List.filter_cons, hxc']
        simp [hxc']

/-- Python's `sorted(..., key=lambda x: x[1])` is stable: vans of equal fuel
rate keep their input order. -/
theorem sortLe_filter_fuel (c : Int) (l : List Van) :
    (sortLe vanLe l).filter (fun v => v.2 == c)
      = l.filter (fun v => v.2 == c) := by
  have key : ∀ (l acc : List Van),
      acc.Pairwise (fun a b => vanLe a b = true) →
      (l.foldl (fun acc x => insertLe vanLe x acc) acc).filter
          (fun v => v.2 == c)
        = acc.filter (fun v => v.2 == c) ++ l.filter (fun v => v.2 == c) := by
    intro l
    induction l with
    | nil =>
      intro acc h
      simp
    | cons x xs ih =>
      intro acc h
      simp only [List.foldl_cons]
      rw [ih _ (insertLe_pairwise vanLe vanLe_total vanLe_trans x acc h)]
      rw [insertLe_filter_fuel c x acc h]
      rw [List.filter_cons]
      cases hxc : (x.2 == c) <;> simp [hxc]
  have h := key l [] List.Pairwise.nil
  simpa [sortLe] using h

/-- If the current shortlisted van selects nothing, the allocator stops
immediately: the rest of the shortlist is never consulted and the remaining
pool is returned unchanged. -/
theorem multiLoop_stop (van : Van) (rest : List Van) (rem : List Pkg)
    (hrem : ¬ rem = [])
    (hnone : (find_optimal_route_for_single_van [van] rem).1 = none) :
    multiLoop (van :: rest) rem = ([], 0, 0, [], rem) := by
  unfold multiLoop
  have he : rem.isEmpty = false := by
    rcases rem with - | ⟨p, ps⟩
    · exact absurd rfl hrem
    · rfl
  rw [he]
  rw [if_neg Bool.false_ne_true]
  rcases hres : find_optimal_route_for_single_van [van] rem
    with ⟨ov, d, f, route, nc⟩
  rw [hres] at hnone
  rcases ov with - | bv
  · rfl
  · cases hnone

/-- A successful round advances the allocator into the remaining shortlist
with the round's not-completed list as the new (shrunken) pool. -/
theorem multiLoop_advance (u : Van) (urest : List Van) (urem : List Pkg)
    (ubv : Van) (hurem : ¬ urem = [])
    (husucc : (find_optimal_route_for_single_van [u] urem).1 = some ubv) :
    multiLoop (u :: urest) urem
      = (ubv :: (multiLoop urest
            (find_optimal_route_for_single_van [u] urem).2.2.2.2).1,
         (find_optimal_route_for_single_van [u] urem).2.1
           + (multiLoop urest
              (find_optimal_route_for_single_van [u] urem).2.2.2.2).2.1,
         (find_optimal_route_for_single_van [u] urem).2.2.1
           + (multiLoop urest
              (find_optimal_route_for_single_van [u] urem).2.2.2.2).2.2.1,
         (find_optimal_route_for_single_van [u] urem).2.2.2.1
           :: (multiLoop urest
              (find_optimal_route_for_single_van [u] urem).2.2.2.2).2.2.2.1,
         (multiLoop urest
            (find_optimal_route_for_single_van [u] urem).2.2.2.2).2.2.2.2) := by
  have he : urem.isEmpty = false := by
    rcases urem with - | ⟨p, ps⟩
    · exact absurd rfl hurem
    · rfl
  simp only [multiLoop]
  rw [he]
  rw [if_neg Bool.false_ne_true]
  rcases hres : find_optimal_route_for_single_van [u] urem
    with ⟨ov, d, f, route, nc⟩
  rw [hres] at husucc
  have hov : ov = some ubv := husucc
  subst hov
  rfl

/-- C8: the multi-van allocator iterates only the 3 vans with lowest
fuel-per-unit — the shortlist is the 3-prefix of a stable ascending sort by
fuel (a permutation of the filtered vans, pairwise nondecreasing in fuel,
with equal-fuel vans kept in input order) and the allocator is exactly the
round loop on that prefix.  A successful round passes its not-completed list
to the remaining shortlist as the shrunken pool, and whenever the round loop
reaches a van that selects nothing — at any position of the shortlist, i.e.
for any remaining shortlist and any then-current nonempty pool — iteration
stops at once: the later shortlisted vans are never attempted and the
current pool is returned unserved. -/
theorem c8_multi_van_shortlist (van_stats : List Van) (packages : List Pkg)
    (c : Int) (van : Van) (rest : List Van) (rem : List Pkg)
    (u : Van) (urest : List Van) (urem : List Pkg) (ubv : Van)
    (hrem : ¬ rem = [])
    (hnone : (find_optimal_route_for_single_van [van] rem).1 = none)
    (hurem : ¬ urem = [])
    (husucc : (find_optimal_route_for_single_van [u] urem).1 = some ubv) :
    List.Perm (sortLe vanLe (filter_invalid_input van_stats packages).1)
        (filter_invalid_input van_stats packages).1 ∧
    (sortLe vanLe (filter_invalid_input van_stats packages).1).Pairwise
        (fun a b => vanLe a b = true) ∧
    (sortLe vanLe (filter_invalid_input van_stats packages).1).filter
          (fun v => v.2 == c)
        = (filter_invalid_input van_stats packages).1.filter
          (fun v => v.2 == c) ∧
    find_optimal_route_for_multiple_vans van_stats packages
        = ((multiLoop
              ((sortLe vanLe (filter_invalid_input van_stats packages).1).take
                3) (filter_invalid_input van_stats packages).2).1,
           (multiLoop
              ((sortLe vanLe (filter_invalid_input van_stats packages).1).take
                3) (filter_invalid_input van_stats packages).2).2.1,
           (multiLoop
              ((sortLe vanLe (filter_invalid_input van_stats packages).1).take
                3) (filter_invalid_input van_stats packages).2).2.2.1,
           (multiLoop
              ((sortLe vanLe (filter_invalid_input van_stats packages).1).take
                3) (filter_invalid_input van_stats packages).2).2.2.2.1) ∧
    multiLoop (u :: urest) urem
        = (ubv :: (multiLoop urest
              (find_optimal_route_for_single_van [u] urem).2.2.2.2).1,
           (find_optimal_route_for_single_van [u] urem).2.1
             + (multiLoop urest
                (find_optimal_route_for_single_van [u] urem).2.2.2.2).2.1,
           (find_optimal_route_for_single_van [u] urem).2.2.1
             + (multiLoop urest
                (find_optimal_route_for_single_van [u] urem).2.2.2.2).2.2.1,
           (find_optimal_route_for_single_van [u] urem).2.2.2.1
             :: (multiLoop urest
                (find_optimal_route_for_single_van [u] urem).2.2.2.2).2.2.2.1,
           (multiLoop urest
              (find_optimal_route_for_single_van [u] urem).2.2.2.2).2.2.2.2) ∧
    multiLoop (van :: rest) rem = ([], 0, 0, [], rem) := by
  refine ⟨sortLe_perm vanLe _,
    sortLe_pairwise vanLe vanLe_total vanLe_trans _,
    sortLe_filter_fuel c _, ?_,
    multiLoop_advance u urest urem ubv hurem husucc,
    multiLoop_stop van rest rem hrem hnone⟩
  unfold find_optimal_route_for_multiple_vans
  dsimp only

/-- Witness for C8 at a run whose failure happens at shortlist position 2:
the cheapest van `(10,1)` serves its whole 5-package window and leaves the
pool `[(20,21,50)]`; the second van `(5,2)` cannot lift that package and
selects nothing, so iteration stops with the third van `(100,3)` untried —
as the extra conjuncts verify on the end-to-end allocator run. -/
theorem c8_multi_van_shortlist_witness :
    (List.Perm (sortLe vanLe
        (filter_invalid_input [(10, 1), (5, 2), (100, 3)]
          [(1, 2, 1), (3, 4, 1), (5, 6, 1), (7, 8, 1), (9, 10, 1),
           (20, 21, 50)]).1)
        (filter_invalid_input [(10, 1), (5, 2), (100, 3)]
          [(1, 2, 1), (3, 4, 1), (5, 6, 1), (7, 8, 1), (9, 10, 1),
           (20, 21, 50)]).1 ∧
    (sortLe vanLe
        (filter_invalid_input [(10, 1), (5, 2), (100, 3)]
          [(1, 2, 1), (3, 4, 1), (5, 6, 1), (7, 8, 1), (9, 10, 1),
           (20, 21, 50)]).1).Pairwise
        (fun a b => vanLe a b = true) ∧
    (sortLe vanLe
        (filter_invalid_input [(10, 1), (5, 2), (100, 3)]
          [(1, 2, 1), (3, 4, 1), (5, 6, 1), (7, 8, 1), (9, 10, 1),
           (20, 21, 50)]).1).filter (fun v => v.2 == 2)
        = (filter_invalid_input [(10, 1), (5, 2), (100, 3)]
          [(1, 2, 1), (3, 4, 1), (5, 6, 1), (7, 8, 1), (9, 10, 1),
           (20, 21, 50)]).1.filter (fun v => v.2 == 2) ∧
    find_optimal_route_for_multiple_vans [(10, 1), (5, 2), (100, 3)]
        [(1, 2, 1), (3, 4, 1), (5, 6, 1), (7, 8, 1), (9, 10, 1),
         (20, 21, 50)]
        = ((multiLoop
              ((sortLe vanLe (filter_invalid_input [(10, 1), (5, 2), (100, 3)]
                [(1, 2, 1), (3, 4, 1), (5, 6, 1), (7, 8, 1), (9, 10, 1),
                 (20, 21, 50)]).1).take 3)
              (filter_invalid_input [(10, 1), (5, 2), (100, 3)]
                [(1, 2, 1), (3, 4, 1), (5, 6, 1), (7, 8, 1), (9, 10, 1),
                 (20, 21, 50)]).2).1,
           (multiLoop
              ((sortLe vanLe (filter_invalid_input [(10, 1), (5, 2), (100, 3)]
                [(1, 2, 1), (3, 4, 1), (5, 6, 1), (7, 8, 1), (9, 10, 1),
                 (20, 21, 50)]).1).take 3)
              (filter_invalid_input [(10, 1), (5, 2), (100, 3)]
                [(1, 2, 1), (3, 4, 1), (5, 6, 1), (7, 8, 1), (9, 10, 1),
                 (20, 21, 50)]).2).2.1,
           (multiLoop
              ((sortLe vanLe (filter_invalid_input [(10, 1), (5, 2), (100, 3)]
                [(1, 2, 1), (3, 4, 1), (5, 6, 1), (7, 8, 1), (9, 10, 1),
                 (20, 21, 50)]).1).take 3)
              (filter_invalid_input [(10, 1), (5, 2), (100, 3)]
                [(1, 2, 1), (3, 4, 1), (5, 6, 1), (7, 8, 1), (9, 10, 1),
                 (20, 21, 50)]).2).2.2.1,
           (multiLoop
              ((sortLe vanLe (filter_invalid_input [(10, 1), (5, 2), (100, 3)]
                [(1, 2, 1), (3, 4, 1), (5, 6, 1), (7, 8, 1), (9, 10, 1),
                 (20, 21, 50)]).1).take 3)
              (filter_invalid_input [(10, 1), (5, 2), (100, 3)]
                [(1, 2, 1), (3, 4, 1), (5, 6, 1), (7, 8, 1), (9, 10, 1),
                 (20, 21, 50)]).2).2.2.2.1) ∧
    multiLoop ((10, 1) :: [(5, 2), (100, 3)])
        [(1, 2, 1), (3, 4, 1), (5, 6, 1), (7, 8, 1), (9, 10, 1),
         (20, 21, 50)]
        = ((10, 1) :: (multiLoop [(5, 2), (100, 3)]
              (find_optimal_route_for_single_van [(10, 1)]
                [(1, 2, 1), (3, 4, 1), (5, 6, 1), (7, 8, 1), (9, 10, 1),
                 (20, 21, 50)]).2.2.2.2).1,
           (find_optimal_route_for_single_van [(10, 1)]
              [(1, 2, 1), (3, 4, 1), (5, 6, 1), (7, 8, 1), (9, 10, 1),
               (20, 21, 50)]).2.1
             + (multiLoop [(5, 2), (100, 3)]
                (find_optimal_route_for_single_van [(10, 1)]
                  [(1, 2, 1), (3, 4, 1), (5, 6, 1), (7, 8, 1), (9, 10, 1),
                   (20, 21, 50)]).2.2.2.2).2.1,
           (find_optimal_route_for_single_van [(10, 1)]
              [(1, 2, 1), (3, 4, 1), (5, 6, 1), (7, 8, 1), (9, 10, 1),
               (20, 21, 50)]).2.2.1
             + (multiLoop [(5, 2), (100, 3)]
                (find_optimal_route_for_single_van [(10, 1)]
                  [(1, 2, 1), (3, 4, 1), (5, 6, 1), (7, 8, 1), (9, 10, 1),
                   (20, 21, 50)]).2.2.2.2).2.2.1,
           (find_optimal_route_for_single_van [(10, 1)]
              [(1, 2, 1), (3, 4, 1), (5, 6, 1), (7, 8, 1), (9, 10, 1),
               (20, 21, 50)]).2.2.2.1
             :: (multiLoop [(5, 2), (100, 3)]
                (find_optimal_route_for_single_van [(10, 1)]
                  [(1, 2, 1), (3, 4, 1), (5, 6, 1), (7, 8, 1), (9, 10, 1),
                   (20, 21, 50)]).2.2.2.2).2.2.2.1,
           (multiLoop [(5, 2), (100, 3)]
              (find_optimal_route_for_single_van [(10, 1)]
                [(1, 2, 1), (3, 4, 1), (5, 6, 1), (7, 8, 1), (9, 10, 1),
                 (20, 21, 50)]).2.2.2.2).2.2.2.2) ∧
    multiLoop ((5, 2) :: [(100, 3)]) [(20, 21, 50)]
        = ([], 0, 0, [], [(20, 21, 50)])) ∧
    (find_optimal_route_for_single_van [(10, 1)]
        [(1, 2, 1), (3, 4, 1), (5, 6, 1), (7, 8, 1), (9, 10, 1),
         (20, 21, 50)]).2.2.2.2 = [(20, 21, 50)] ∧
    (find_optimal_route_for_multiple_vans [(10, 1), (5, 2), (100, 3)]
        [(1, 2, 1), (3, 4, 1), (5, 6, 1), (7, 8, 1), (9, 10, 1),
         (20, 21, 50)]).1 = [(10, 1)] :=
  ⟨c8_multi_van_shortlist [(10, 1), (5, 2), (100, 3)]
      [(1, 2, 1), (3, 4, 1), (5, 6, 1), (7, 8, 1), (9, 10, 1), (20, 21, 50)]
      2 (5, 2) [(100, 3)] [(20, 21, 50)]
      (10, 1) [(5, 2), (100, 3)]
      [(1, 2, 1), (3, 4, 1), (5, 6, 1), (7, 8, 1), (9, 10, 1), (20, 21, 50)]
      (10, 1)
      (by decide) (by decide) (by decide) (by decide),
   by decide, by decide⟩

/-! ## The served/not-completed key partition -/

/-- Erasing the first package with key `k` realizes one `cons` of the key
multiset. -/
theorem eraseFirstKey_perm {ps : List Pkg} {k : Int × Int}
    (h : k ∈ ps.map pkey) :
    List.Perm (ps.map pkey) (k :: (eraseFirstKey ps k).map pkey) := by
  induction ps with
  | nil => cases h
  | cons p ps ih =>
    unfold eraseFirstKey
    by_cases hpk : pkey p = k
    · rw [if_pos hpk]
      simp only [List.map_cons, hpk]
      exact List.Perm.refl _
    · rw [if_neg hpk]
      have hk : k ∈ ps.map pkey := by
        rcases List.mem_cons.1 h with h' | h'
        · exact absurd h'.symm hpk
        · exact h'
      simp only [List.map_cons]
      exact (List.Perm.cons (pkey p) (ih hk)).trans
        (List.Perm.swap k (pkey p) _)

/-- Peeling one key off a sub-permutation of the key multiset. -/
theorem subperm_tail {ks : List (Int × Int)} {k : Int × Int} {ps : List Pkg}
    (hsub : List.Subperm (k :: ks) (ps.map pkey)) :
    List.Subperm ks ((eraseFirstKey ps k).map pkey) := by
  have hk : k ∈ ps.map pkey := hsub.subset (List.mem_cons_self k ks)
  have hperm := eraseFirstKey_perm hk
  have hm : (k ::ₘ (↑ks : Multiset (Int × Int))) ≤ ↑(ps.map pkey) := by
    rw [Multiset.cons_coe]
    exact Multiset.coe_le.2 hsub
  have heq : (↑(ps.map pkey) : Multiset (Int × Int))
      = k ::ₘ ↑((eraseFirstKey ps k).map pkey) := by
    rw [Multiset.cons_coe]
    exact Multiset.coe_eq_coe.2 hperm
  rw [heq] at hm
  exact Multiset.coe_le.1 ((Multiset.cons_le_cons_iff k).1 hm)

/-- Folding `eraseFirstKey` over a sub-multiset of keys splits the key
multiset of the package list. -/
theorem fold_eraseFirstKey_perm :
    ∀ (ks : List (Int × Int)) (ps : List Pkg),
      List.Subperm ks (ps.map pkey) →
      List.Perm (ps.map pkey)
        (ks ++ (ks.foldl eraseFirstKey ps).map pkey) := by
  intro ks
  induction ks with
  | nil =>
    intro ps _
    exact List.Perm.refl _
  | cons k ks ih =>
    intro ps hsub
    have hk : k ∈ ps.map pkey := hsub.subset (List.mem_cons_self k ks)
    have h1 := eraseFirstKey_perm hk
    have h2 := ih (eraseFirstKey ps k) (subperm_tail hsub)
    simp only [List.foldl_cons]
    exact h1.trans (List.Perm.cons k h2)

/-- The key of a self-referential triple is the pending entry itself. -/
theorem map_pkey_selfTriple :
    ∀ (l : List (Int × Int)), (l.map selfTriple).map pkey = l := by
  intro l
  induction l with
  | nil => rfl
  | cons x xs ih =>
    simp only [List.map_cons, ih]
    rfl

/-- One finished attempt partitions the filtered packages at the
`(pickup, weight)` key level: keys of served packages plus keys of the
attempt's not-completed entries are a permutation of the input keys. -/
theorem attempt_key_partition (van : Van) (pkgs : List Pkg) :
    List.Perm
      ((servedPackages (construct_route (VanRouter.init van pkgs))).map pkey
        ++ ((construct_route (VanRouter.init van pkgs)).not_completed).map
            pkey)
      (pkgs.map pkey) := by
  obtain ⟨hpk, hsub, hdel, hnc⟩ := construct_route_init_spec
    (VanRouter.init van pkgs) rfl rfl rfl (init_pickups_len van pkgs)
  have hpickups0 : (VanRouter.init van pkgs).pickups
      = ((VanRouter.init van pkgs).packages).map pkey := rfl
  have hsub' : List.Subperm
      (construct_route (VanRouter.init van pkgs)).pickups
      (((construct_route (VanRouter.init van pkgs)).packages).map pkey) := by
    rw [hpk, ← hpickups0]
    exact hsub
  have hserved : List.Perm
      (((construct_route (VanRouter.init van pkgs)).packages).map pkey)
      ((construct_route (VanRouter.init van pkgs)).pickups
        ++ (servedPackages (construct_route (VanRouter.init van pkgs))).map
            pkey) :=
    fold_eraseFirstKey_perm
      (construct_route (VanRouter.init van pkgs)).pickups
      (construct_route (VanRouter.init van pkgs)).packages hsub'
  have hncmap :
      ((construct_route (VanRouter.init van pkgs)).not_completed).map pkey
      = ((VanRouter.init van pkgs).not_completed).map pkey
        ++ (construct_route (VanRouter.init van pkgs)).pickups := by
    rw [hnc, List.map_append, map_pkey_selfTriple]
  rw [hncmap]
  have hpart := (init_partition_perm van pkgs).map pkey
  rw [List.map_append] at hpart
  have hpart' : List.Perm
      ((((construct_route (VanRouter.init van pkgs)).packages).map pkey)
        ++ ((VanRouter.init van pkgs).not_completed).map pkey)
      (pkgs.map pkey) := by
    rw [hpk]
    exact hpart
  have s1 : List.Perm
      ((servedPackages (construct_route (VanRouter.init van pkgs))).map pkey
        ++ (((VanRouter.init van pkgs).not_completed).map pkey
          ++ (construct_route (VanRouter.init van pkgs)).pickups))
      (((construct_route (VanRouter.init van pkgs)).pickups
          ++ (servedPackages (construct_route (VanRouter.init van pkgs))).map
              pkey)
        ++ ((VanRouter.init van pkgs).not_completed).map pkey) := by
    refine (List.Perm.append_left _ List.perm_append_comm).trans ?_
    rw [← List.append_assoc]
    exact List.Perm.append_right _ List.perm_append_comm
  exact (s1.trans
    (List.Perm.append_right _ hserved.symm)).trans hpart'

/-- C3 counterexample: van `(10,10)`, packages `[(1,2,4),(3,4,20)]`.  The
first package is served; the second cannot ever fit, so the attempt fails
early and records it as the self-referential triple `(3,3,20)` — not as the
original `(3,4,20)`.  Served plus notCompleted is therefore NOT a multiset
partition of the filtered packages. -/
theorem c3_partition_counterexample :
    singleServed [(10, 10)] [(1, 2, 4), (3, 4, 20)] = [(1, 2, 4)] ∧
    (find_optimal_route_for_single_van [(10, 10)]
        [(1, 2, 4), (3, 4, 20)]).2.2.2.2 = [(3, 3, 20)] ∧
    ¬ List.Perm
        (singleServed [(10, 10)] [(1, 2, 4), (3, 4, 20)]
          ++ (find_optimal_route_for_single_van [(10, 10)]
              [(1, 2, 4), (3, 4, 20)]).2.2.2.2)
        ((filter_invalid_input [(10, 10)] [(1, 2, 4), (3, 4, 20)]).2) := by
  refine ⟨by decide, by decide, ?_⟩
  intro h
  have h2 : ((3 : Int), (4 : Int), (20 : Int))
      ∈ (singleServed [(10, 10)] [(1, 2, 4), (3, 4, 20)]
          ++ (find_optimal_route_for_single_van [(10, 10)]
              [(1, 2, 4), (3, 4, 20)]).2.2.2.2) :=
    h.symm.subset (by decide)
  exact absurd h2 (by decide)

/-- C3 amended: for every single-van optimizer call (and hence for every
round the multi-van allocator performs), served and notCompleted partition
the filtered packages at the `(pickup location, weight)` key level: an
unserved windowed package is represented in notCompleted by the
self-referential triple `(loc, loc, weight)`, which preserves exactly that
key, so the multiset of keys of served plus notCompleted equals the multiset
of keys of the filtered input. -/
theorem c3_partition_amended (van_stats : List Van) (packages : List Pkg) :
    List.Perm
      ((singleServed van_stats packages).map pkey
        ++ ((find_optimal_route_for_single_van van_stats
              packages).2.2.2.2).map pkey)
      (((filter_invalid_input van_stats packages).2).map pkey) := by
  unfold singleServed find_optimal_route_for_single_van
  dsimp only
  rcases he : (filter_invalid_input van_stats packages).2.isEmpty with - | -
  · rw [if_neg Bool.false_ne_true, if_neg Bool.false_ne_true]
    rcases hb : bestAttempt (filter_invalid_input van_stats packages).1
        (filter_invalid_input van_stats packages).2 with - | r
    · exact List.Perm.refl _
    · dsimp only
      have hmem := bestFold_mem (filter_invalid_input van_stats packages).2
        (filter_invalid_input van_stats packages).1 none r hb
      rcases hmem with hacc | ⟨v, hv, rfl⟩
      · cases hacc
      · exact attempt_key_partition v
          (filter_invalid_input van_stats packages).2
  · rw [if_pos rfl, if_pos rfl]
    have hnil : (filter_invalid_input van_stats packages).2 = [] := by
      rcases hl : (filter_invalid_input van_stats packages).2 with - | ⟨p, ps⟩
      · rfl
      · rw [hl] at he
        cases he
    rw [hnil]
    rcases hv : (filter_invalid_input van_stats packages).1 with - | ⟨v, vs⟩
    · exact List.Perm.refl _
    · exact List.Perm.refl _
